import Mathlib

/-!
Shallow embedding of the price-bargaining service (`src/app.py`).

Prices and discounts are Python floats in the source; they are idealised
as rationals (`ℚ`) here.  Conversation messages are Python dicts whose
fields may be absent, embedded as `Option`-valued fields.  The external
Gemini calls (`model.generate_content`) are opaque; their outcomes are
passed in as explicit `Except String String` parameters, and the calls
actually issued are reported in an explicit call log.
-/

/-- A conversation message: a dict with optional `role`, `timestamp`,
`message` keys (`msg.get(...)` in the source). -/
structure Msg where
  role : Option String
  timestamp : Option String
  message : Option String
deriving DecidableEq, Repr

/-- `BargainBot.max_discount_percentage` (`app.py` line 20). -/
def max_discount_percentage : ℚ := 10

/-- The generalised minimum-price formula
`originalPrice * (1 - maxDiscountPercent/100)`. -/
def minimumPrice (originalPrice maxDiscountPercent : ℚ) : ℚ :=
  originalPrice * (1 - maxDiscountPercent / 100)

/-- `BargainBot.calculate_minimum_price` (`app.py` lines 28-30):
`original_price * (1 - self.max_discount_percentage / 100)`. -/
def calculate_minimum_price (original_price : ℚ) : ℚ :=
  original_price * (1 - max_discount_percentage / 100)

/-- The discounts of `BargainBot.negotiation_steps`
(`app.py` lines 21-26), as an association list step ↦ discount. -/
def negotiation_steps : List (Nat × ℚ) := [(1, 2), (2, 4), (3, 7), (4, 10)]

/-- `self.negotiation_steps.get(negotiation_step, self.negotiation_steps[4])`
followed by reading the `"discount"` field (`app.py` lines 82-83). -/
def step_discount (step : Nat) : ℚ :=
  (negotiation_steps.lookup step).getD ((negotiation_steps.lookup 4).getD 10)

/-- `BargainBot.get_negotiation_step` (`app.py` lines 32-42): `1` for an
empty history, otherwise the count of messages whose `role` is `"user"`,
capped at `4`. -/
def get_negotiation_step (h : List Msg) : Nat :=
  if h = [] then 1
  else min (h.filter (fun m => m.role = some "user")).length 4

/-- Number of messages with role `"user"` (the length of the
`user_messages` list comprehension at `app.py` line 38). -/
def userCount (h : List Msg) : Nat :=
  (h.filter (fun m => m.role = some "user")).length

theorem userCount_pos_iff (h : List Msg) :
    1 ≤ userCount h ↔ ∃ m ∈ h, m.role = some "user" := by
  unfold userCount
  rw [Nat.one_le_iff_ne_zero]
  constructor
  · intro hne
    have : h.filter (fun m => m.role = some "user") ≠ [] := by
      intro hnil; exact hne (by simp [hnil])
    rcases List.exists_mem_of_ne_nil _ this with ⟨m, hm⟩
    have := List.mem_filter.mp hm
    exact ⟨m, this.1, by simpa using this.2⟩
  · rintro ⟨m, hmem, hrole⟩
    intro hlen
    have hnil : h.filter (fun m => m.role = some "user") = [] :=
      List.eq_nil_of_length_eq_zero hlen
    have : m ∈ h.filter (fun m => m.role = some "user") :=
      List.mem_filter.mpr ⟨hmem, by simpa using hrole⟩
    simp [hnil] at this

/-- C3: for every `originalPrice > 0` and `maxDiscountPercent ∈ [0,100]`,
`minimumPrice = originalPrice * (1 - maxDiscountPercent/100) ≤ originalPrice`,
with equality iff the discount is `0`; and with the bot's fixed
`max_discount_percentage = 10`, `calculate_minimum_price p = 0.9 * p < p`. -/
theorem C3_minimum_price (p d : ℚ) (hp : 0 < p) (hd0 : 0 ≤ d) (hd100 : d ≤ 100) :
    minimumPrice p d = p * (1 - d / 100)
    ∧ minimumPrice p d ≤ p
    ∧ (minimumPrice p d = p ↔ d = 0)
    ∧ calculate_minimum_price p = (9 / 10) * p
    ∧ calculate_minimum_price p < p := by
  refine ⟨rfl, ?_, ?_, ?_, ?_⟩
  · unfold minimumPrice; nlinarith
  · unfold minimumPrice
    constructor
    · intro hEq; nlinarith
    · intro hEq; simp [hEq]
  · unfold calculate_minimum_price max_discount_percentage; ring
  · unfold calculate_minimum_price max_discount_percentage; nlinarith

theorem C3_minimum_price_witness :
    minimumPrice 100 10 ≤ 100 ∧ calculate_minimum_price 100 = 90 := by
  have h := C3_minimum_price 100 10 (by norm_num) (by norm_num) (by norm_num)
  refine ⟨h.2.1, ?_⟩
  rw [h.2.2.2.1]; norm_num

/-- C8: the suggested discount for steps 1..4 is 2%, 4%, 7%, 10% from the
step table, and every step outside the table's domain yields the
highest-step entry, 10%. -/
theorem C8_step_discount :
    (step_discount 1 = 2 ∧ step_discount 2 = 4
      ∧ step_discount 3 = 7 ∧ step_discount 4 = 10)
    ∧ ∀ s : Nat, s ∉ [1, 2, 3, 4] → step_discount s = 10 := by
  constructor
  · exact ⟨rfl, rfl, rfl, rfl⟩
  · intro s hs
    simp only [List.mem_cons, List.not_mem_nil, or_false, not_or] at hs
    obtain ⟨h1, h2, h3, h4⟩ := hs
    simp [step_discount, negotiation_steps, List.lookup,
      beq_eq_false_iff_ne.mpr h1, beq_eq_false_iff_ne.mpr h2,
      beq_eq_false_iff_ne.mpr h3, beq_eq_false_iff_ne.mpr h4]

theorem C8_step_discount_witness :
    (7 : Nat) ∉ [1, 2, 3, 4] ∧ step_discount 7 = 10 :=
  ⟨by decide, C8_step_discount.2 7 (by decide)⟩

/-- C1 counterexample: on the non-empty history consisting of a single
assistant message, `get_negotiation_step` returns `min(0,4) = 0`, not a
value `≥ 1` as the claim states. -/
theorem C1_step_counterexample :
    get_negotiation_step [⟨some "assistant", some "1", some "Hello!"⟩] = 0
    ∧ ¬ 1 ≤ get_negotiation_step [⟨some "assistant", some "1", some "Hello!"⟩] := by
  constructor <;> decide

/-- C1 (amended): for every non-empty history the step equals
`min(userMessageCount, 4)`, and it is `≥ 1` iff the history contains at
least one user message (a non-empty history with zero user messages
yields 0); for the empty history the step is 1. -/
theorem C1_step_amended (h : List Msg) :
    (h ≠ [] → get_negotiation_step h = min (userCount h) 4
      ∧ (1 ≤ get_negotiation_step h ↔ ∃ m ∈ h, m.role = some "user"))
    ∧ (h = [] → get_negotiation_step h = 1) := by
  constructor
  · intro hne
    have hstep : get_negotiation_step h = min (userCount h) 4 := by
      simp [get_negotiation_step, userCount, hne]
    refine ⟨hstep, ?_⟩
    rw [hstep, le_min_iff]
    constructor
    · intro hle; exact (userCount_pos_iff h).mp hle.1
    · intro hex; exact ⟨(userCount_pos_iff h).mpr hex, by norm_num⟩
  · intro hnil; simp [get_negotiation_step, hnil]

theorem C1_step_amended_witness :
    get_negotiation_step [⟨some "user", some "1", some "hi"⟩]
      = min (userCount [⟨some "user", some "1", some "hi"⟩]) 4 :=
  ((C1_step_amended [⟨some "user", some "1", some "hi"⟩]).1 (by decide)).1

/-- The fractional part of the regex at `app.py` line 71: after the
maximal digit run `ds`, an optional `\.\d{2}` group.  Returns the full
captured group and the remaining input. -/
def matchFrac (ds rest : List Char) : List Char × List Char :=
  match rest with
  | '.' :: d1 :: d2 :: rest2 =>
    if d1.isDigit && d2.isDigit then (ds ++ ['.', d1, d2], rest2)
    else (ds, rest)
  | _ => (ds, rest)

/-- Matches `\d+(?:\.\d{2})?` at the head of `cs` (the capture group of
the regex at `app.py` line 71): a non-empty maximal digit run, then an
optional dot followed by two digits.  `none` when `cs` does not start
with a digit. -/
def matchNum (cs : List Char) : Option (List Char × List Char) :=
  if (cs.takeWhile Char.isDigit).isEmpty then none
  else some (matchFrac (cs.takeWhile Char.isDigit)
    (cs.drop (cs.takeWhile Char.isDigit).length))

theorem matchFrac_snd_length (ds rest : List Char) :
    (matchFrac ds rest).2.length ≤ rest.length := by
  unfold matchFrac
  split
  · split
    · simp only [List.length_cons]
      omega
    · simp
  · simp

theorem matchNum_length {cs cap r : List Char}
    (h : matchNum cs = some (cap, r)) : r.length < cs.length := by
  unfold matchNum at h
  by_cases hempty : (cs.takeWhile Char.isDigit).isEmpty
  · simp [hempty] at h
  · rw [if_neg hempty] at h
    injection h with h'
    have hpos : 0 < (cs.takeWhile Char.isDigit).length := by
      rcases hcs : cs.takeWhile Char.isDigit with _ | ⟨a, l⟩
      · rw [hcs] at hempty; simp at hempty
      · simp
    have hle : (cs.takeWhile Char.isDigit).length ≤ cs.length :=
      (List.takeWhile_prefix Char.isDigit).length_le
    have hr : r = (matchFrac (cs.takeWhile Char.isDigit)
        (cs.drop (cs.takeWhile Char.isDigit).length)).2 := by rw [h']
    rw [hr]
    calc (matchFrac (cs.takeWhile Char.isDigit)
          (cs.drop (cs.takeWhile Char.isDigit).length)).2.length
        ≤ (cs.drop (cs.takeWhile Char.isDigit).length).length :=
          matchFrac_snd_length _ _
      _ = cs.length - (cs.takeWhile Char.isDigit).length := List.length_drop _ _
      _ < cs.length := Nat.sub_lt (lt_of_lt_of_le hpos hle) hpos

/-- `re.findall(r'\$(\d+(?:\.\d{2})?)', text)` (`app.py` lines 71-72):
left-to-right, non-overlapping scan collecting each capture group. -/
def scanPrices : List Char → List (List Char)
  | [] => []
  | c :: rest =>
    if c = '$' then
      match hm : matchNum rest with
      | some (cap, rest2) => cap :: scanPrices rest2
      | none => scanPrices rest
    else scanPrices rest
termination_by cs => cs.length
decreasing_by
  · simp only [List.length_cons]
    exact Nat.lt_succ_of_lt (matchNum_length hm)
  · simp only [List.length_cons]
    exact Nat.lt_succ_self _
  · simp only [List.length_cons]
    exact Nat.lt_succ_self _

/-- Numeric value of a digit run. -/
def digitsVal (ds : List Char) : Nat :=
  ds.foldl (fun a c => 10 * a + (c.toNat - 48)) 0

/-- Python `float(...)` on a captured group (digits, optionally a dot and
two more digits), idealised to `ℚ`. -/
def parsePrice (cap : List Char) : ℚ :=
  match cap.drop (cap.takeWhile Char.isDigit).length with
  | '.' :: fs => (digitsVal (cap.takeWhile Char.isDigit) : ℚ) + (digitsVal fs : ℚ) / 100
  | _ => (digitsVal (cap.takeWhile Char.isDigit) : ℚ)

/-- `BargainBot.extract_price_from_response` (`app.py` lines 68-75):
`float(matches[-1])` when the regex matches, else `None`. -/
def extract_price_from_response (response_text : String) : Option ℚ :=
  match (scanPrices response_text.data).getLast? with
  | some cap => some (parsePrice cap)
  | none => none

/-- `cs` contains a dollar sign immediately followed by a digit — exactly
when some substring of `cs` matches the regex at `app.py` line 71. -/
def hasDollarNum (cs : List Char) : Prop :=
  ∃ pre d rest, cs = pre ++ '$' :: d :: rest ∧ d.isDigit
theorem scanPrices_cons_some {rest cap rest2 : List Char}
    (hm : matchNum rest = some (cap, rest2)) :
    scanPrices ('$' :: rest) = cap :: scanPrices rest2 := by
  simp only [scanPrices, if_pos]
  split
  · rename_i cap2 rest3 hm2
    rw [hm] at hm2
    simp only [Option.some.injEq, Prod.mk.injEq] at hm2
    rw [hm2.1, hm2.2]
  · rename_i hm2
    rw [hm] at hm2
    cases hm2

theorem scanPrices_cons_none {rest : List Char} (hm : matchNum rest = none) :
    scanPrices ('$' :: rest) = scanPrices rest := by
  simp only [scanPrices, if_pos]
  split
  · rename_i cap2 rest3 hm2
    rw [hm] at hm2
    cases hm2
  · rfl

theorem scanPrices_cons_ne {c : Char} {rest : List Char} (hc : c ≠ '$') :
    scanPrices (c :: rest) = scanPrices rest := by
  simp only [scanPrices, if_neg hc]

theorem head_digit_of_matchNum_some {cs : List Char} {p : List Char × List Char}
    (h : matchNum cs = some p) : ∃ d r, cs = d :: r ∧ d.isDigit := by
  unfold matchNum at h
  by_cases hempty : (cs.takeWhile Char.isDigit).isEmpty
  · simp [hempty] at h
  · rcases cs with _ | ⟨d, r⟩
    · simp [List.takeWhile] at hempty
    · refine ⟨d, r, rfl, ?_⟩
      by_contra hd
      have hnil : (d :: r).takeWhile Char.isDigit = [] := by
        simp [List.takeWhile_cons, hd]
      rw [hnil] at hempty
      simp at hempty

theorem matchNum_isSome_of_head_digit {d : Char} {r : List Char} (hd : d.isDigit) :
    (matchNum (d :: r)).isSome := by
  unfold matchNum
  have hcons : (d :: r).takeWhile Char.isDigit = d :: r.takeWhile Char.isDigit := by
    simp [List.takeWhile_cons, hd]
  rw [hcons]
  simp

theorem hasDollarNum_cons {c : Char} {rest : List Char} :
    hasDollarNum (c :: rest) ↔
      (c = '$' ∧ ∃ d r, rest = d :: r ∧ d.isDigit) ∨ hasDollarNum rest := by
  constructor
  · rintro ⟨pre, d, r, heq, hd⟩
    rcases pre with _ | ⟨c0, pre2⟩
    · simp at heq
      exact Or.inl ⟨heq.1, d, r, heq.2, hd⟩
    · simp at heq
      exact Or.inr ⟨pre2, d, r, heq.2, hd⟩
  · rintro (⟨hc, d, r, hrest, hd⟩ | ⟨pre, d, r, heq, hd⟩)
    · exact ⟨[], d, r, by simp [hc, hrest], hd⟩
    · exact ⟨c :: pre, d, r, by simp [heq], hd⟩

theorem scanPrices_eq_nil_iff (cs : List Char) :
    scanPrices cs = [] ↔ ¬ hasDollarNum cs := by
  induction cs using scanPrices.induct with
  | case1 => simp [scanPrices, hasDollarNum]
  | case2 rest cap rest2 hm ih =>
    rcases head_digit_of_matchNum_some hm with ⟨d, r, hrest, hd⟩
    have hhas : hasDollarNum ('$' :: rest) :=
      hasDollarNum_cons.mpr (Or.inl ⟨rfl, d, r, hrest, hd⟩)
    simp [scanPrices_cons_some hm, hhas]
  | case3 rest hm ih =>
    have hnohead : ¬ ∃ d r, rest = d :: r ∧ d.isDigit := by
      rintro ⟨d, r, hrest, hd⟩
      rw [hrest] at hm
      have hsome := matchNum_isSome_of_head_digit (r := r) hd
      rw [hm] at hsome
      simp at hsome
    rw [scanPrices_cons_none hm, hasDollarNum_cons]
    constructor
    · intro hnil
      rintro (⟨_, hex⟩ | hh)
      · exact hnohead hex
      · exact (ih.mp hnil) hh
    · intro hnot
      exact ih.mpr fun hh => hnot (Or.inr hh)
  | case4 c rest hc ih =>
    rw [scanPrices_cons_ne hc, hasDollarNum_cons]
    constructor
    · intro hnil
      rintro (⟨hc2, _⟩ | hh)
      · exact hc hc2
      · exact (ih.mp hnil) hh
    · intro hnot
      exact ih.mpr fun hh => hnot (Or.inr hh)

/-- C2: `extract_price_from_response` returns the value of the rightmost
dollar-prefixed numeral as a decimal (`"I can offer $50.00, but my best
is $45.99"` yields `45.99`); it returns a non-absent value exactly when
the input contains a dollar sign followed by a digit, and the absent
value whenever the input has no such substring. -/
theorem C2_extract_price :
    extract_price_from_response "I can offer $50.00, but my best is $45.99"
      = some (4599 / 100)
    ∧ (∀ s : String,
        (∃ q, extract_price_from_response s = some q) ↔ hasDollarNum s.data)
    ∧ (∀ s : String, ¬ hasDollarNum s.data → extract_price_from_response s = none) := by
  have hmain : ∀ s : String,
      (∃ q, extract_price_from_response s = some q) ↔ hasDollarNum s.data := by
    intro s
    unfold extract_price_from_response
    rcases hlast : (scanPrices s.data).getLast? with _ | cap
    · have hnil : scanPrices s.data = [] := List.getLast?_eq_none_iff.mp hlast
      have hno := (scanPrices_eq_nil_iff s.data).mp hnil
      simp [hno]
    · have hne : scanPrices s.data ≠ [] := by
        intro hnil
        rw [hnil] at hlast
        simp at hlast
      have hhas : hasDollarNum s.data := by
        by_contra hno
        exact hne ((scanPrices_eq_nil_iff s.data).mpr hno)
      simp [hhas]
  refine ⟨?_, hmain, ?_⟩
  · simp [extract_price_from_response, scanPrices, matchNum, matchFrac, parsePrice, digitsVal]
    norm_num
  · intro s hno
    rcases hres : extract_price_from_response s with _ | q
    · rfl
    · exact absurd ((hmain s).mp ⟨q, hres⟩) hno

theorem C2_extract_price_witness :
    ¬ hasDollarNum "hello there".data
    ∧ extract_price_from_response "hello there" = none := by
  have hno : ¬ hasDollarNum "hello there".data := by
    rintro ⟨pre, d, rest, heq, hd⟩
    have hmem : '$' ∈ "hello there".data := by
      rw [heq]; simp
    exact absurd hmem (by decide)
  exact ⟨hno, C2_extract_price.2.2 "hello there" hno⟩

/-- The sort key `lambda x: x.get('timestamp', '')` (`app.py` line 161). -/
def tsKey (m : Msg) : String := m.timestamp.getD ""

/-- Python's `<` on strings: lexicographic comparison of the character
sequences (code-point order). -/
def strLt : List Char → List Char → Bool
  | [], [] => false
  | [], _ :: _ => true
  | _ :: _, [] => false
  | a :: as, b :: bs => if a < b then true else if b < a then false else strLt as bs

/-- Stable insertion: `m` goes after every entry whose key is `≤` its key. -/
def insertByTs (m : Msg) : List Msg → List Msg
  | [] => [m]
  | y :: ys =>
    if strLt (tsKey m).data (tsKey y).data then m :: y :: ys
    else y :: insertByTs m ys

/-- `sorted(conversation_history, key=lambda x: x.get('timestamp', ''))`
(`app.py` line 161): Python's stable ascending sort, modelled as a stable
insertion sort over the same key. -/
def sortByTs (h : List Msg) : List Msg :=
  h.foldl (fun acc m => insertByTs m acc) []

/-- `BargainBot.get_latest_user_message` (`app.py` lines 155-168): `None`
for an empty history, otherwise scan the timestamp-sorted history from
the end and return `msg.get('message', '')` of the first message with
role `"user"`, else `None`. -/
def get_latest_user_message (h : List Msg) : Option String :=
  if h = [] then none
  else
    match (sortByTs h).reverse.find? (fun m => m.role == some "user") with
    | some m => some (m.message.getD "")
    | none => none

theorem mem_insertByTs {x m : Msg} {l : List Msg} (hx : x ∈ insertByTs m l) :
    x = m ∨ x ∈ l := by
  induction l with
  | nil => simpa [insertByTs] using hx
  | cons y ys ih =>
    unfold insertByTs at hx
    by_cases hc : strLt (tsKey m).data (tsKey y).data
    · rw [if_pos hc] at hx
      simp only [List.mem_cons] at hx
      rcases hx with h1 | h2 | h3
      · exact Or.inl h1
      · exact Or.inr (by simp [h2])
      · exact Or.inr (List.mem_cons_of_mem _ h3)
    · rw [if_neg hc] at hx
      simp only [List.mem_cons] at hx
      rcases hx with h1 | h2
      · exact Or.inr (by simp [h1])
      · rcases ih h2 with h3 | h4
        · exact Or.inl h3
        · exact Or.inr (List.mem_cons_of_mem _ h4)

theorem mem_foldl_insertByTs {x : Msg} : ∀ (h acc : List Msg),
    x ∈ h.foldl (fun a m => insertByTs m a) acc → x ∈ h ∨ x ∈ acc := by
  intro h
  induction h with
  | nil => exact fun acc hx => Or.inr hx
  | cons m ms ih =>
    intro acc hx
    simp only [List.foldl_cons] at hx
    rcases ih (insertByTs m acc) hx with h1 | h2
    · exact Or.inl (List.mem_cons_of_mem _ h1)
    · rcases mem_insertByTs h2 with h3 | h4
      · exact Or.inl (by simp [h3])
      · exact Or.inr h4

theorem mem_sortByTs {x : Msg} {h : List Msg} (hx : x ∈ sortByTs h) : x ∈ h := by
  rcases mem_foldl_insertByTs h [] hx with h1 | h2
  · exact h1
  · simp at h2

theorem latest_user_message_eq_none {h : List Msg}
    (hnone : ∀ m ∈ h, m.role ≠ some "user") :
    get_latest_user_message h = none := by
  unfold get_latest_user_message
  by_cases hnil : h = []
  · rw [if_pos hnil]
  · rw [if_neg hnil]
    have hfind : (sortByTs h).reverse.find? (fun m => m.role == some "user") = none := by
      rw [List.find?_eq_none]
      intro x hx
      have hxh : x ∈ h := mem_sortByTs (List.mem_reverse.mp hx)
      simpa using hnone x hxh
    rw [hfind]

/-- C6: `get_latest_user_message` stably sorts the history by timestamp
ascending and scans from the end for the first role-`"user"` message: on
`[{user, ts 2}, {assistant, ts 3}, {user, ts 1}]` it returns the ts-2
user message (later-timestamped, not last in array order); with no user
messages, or an empty history, it returns the absent value. -/
theorem C6_latest_user_message :
    get_latest_user_message
      [⟨some "user", some "2", some "later user msg"⟩,
       ⟨some "assistant", some "3", some "bot msg"⟩,
       ⟨some "user", some "1", some "earlier user msg"⟩] = some "later user msg"
    ∧ (∀ h : List Msg, (∀ m ∈ h, m.role ≠ some "user") →
        get_latest_user_message h = none)
    ∧ get_latest_user_message [] = none := by
  refine ⟨by decide, ?_, by decide⟩
  intro h hnone
  exact latest_user_message_eq_none hnone

theorem C6_latest_user_message_witness :
    get_latest_user_message [⟨some "assistant", some "1", some "bot"⟩] = none :=
  C6_latest_user_message.2.1 [⟨some "assistant", some "1", some "bot"⟩] (by decide)

/-- The result quadruple `(bot_response, offered_price, negotiation_step,
detected_language)` of `BargainBot.generate_response`. -/
structure GenResult where
  text : String
  offered_price : Option ℚ
  step : Nat
  language : String
deriving DecidableEq, Repr

/-- An external Gemini call (`model.generate_content`) issued during a
request: the language-detection call (`app.py` line 56) or the response
generation call (`app.py` line 199). -/
inductive ExtCall where
  | detect
  | generate
deriving DecidableEq, Repr

/-- Python's `str.strip()`: whitespace removed from both ends. -/
def pyStrip (s : String) : String :=
  String.mk (((s.data.dropWhile Char.isWhitespace).reverse.dropWhile
    Char.isWhitespace).reverse)

/-- `BargainBot.detect_language` (`app.py` lines 44-66) with the external
reply passed in.  On call failure it returns `"English"`; otherwise it
strips the reply, deletes quote characters, strips again, and returns
`"English"` when the result is empty. -/
def detect_language (user_message : String) (outcome : Except String String) : String :=
  match outcome with
  | .error _ => "English"
  | .ok t =>
    let detected := pyStrip (String.mk
      ((pyStrip t).data.filter (fun c => !(c == '"' || c == '\''))))
    if detected = "" then "English" else detected

/-- The canned greeting returned when there is no (non-empty) latest user
message (`app.py` line 177). -/
def greeting_text : String :=
  "I'm here to help you get the best deal! What would you like to know about this item?"

/-- The apology returned when the generation call fails (`app.py` line 208). -/
def apology_text (e : String) : String :=
  "I apologize, but I'm having trouble processing your request right now. Please try again. Error: "
    ++ e

/-- Product details after endpoint validation; `category` and
`description` only feed prompt text and are not modelled. -/
structure ProductD where
  name : Option String
  price : Option ℚ
deriving DecidableEq, Repr

/-- `BargainBot.generate_response` (`app.py` lines 170-208), with the two
external call outcomes passed in.  Returns the result quadruple together
with the external calls issued.  The prompt strings built by
`create_system_prompt` and `format_conversation_history` do not influence
any returned field and are not modelled; the only exception raised inside
the `try` block under this embedding is a generation-call failure, which
yields the apology result of line 208. -/
def generate_response (product : ProductD) (conversation_history : List Msg)
    (detectOutcome genOutcome : Except String String) :
    GenResult × List ExtCall :=
  match get_latest_user_message conversation_history with
  | none => (⟨greeting_text, none, 1, "English"⟩, [])
  | some user_message =>
    if user_message = "" then
      (⟨greeting_text, none, 1, "English"⟩, [])
    else
      let detected_language := detect_language user_message detectOutcome
      let negotiation_step := get_negotiation_step conversation_history
      match genOutcome with
      | .ok bot_response =>
        (⟨bot_response, extract_price_from_response bot_response,
          negotiation_step, detected_language⟩, [.detect, .generate])
      | .error e =>
        (⟨apology_text e, none, 1, "English"⟩, [.detect, .generate])

/-- C4: whenever the external generation call fails during response
generation (history has a non-empty latest user message, so the
generator is actually invoked), `generate_response` returns the fixed
apology result with absent offered price, step reset to 1 and language
forced to "English", and the generation call is issued exactly once (no
retry). -/
theorem C4_generator_failure (product : ProductD) (h : List Msg)
    (d : Except String String) (e m : String)
    (hm : get_latest_user_message h = some m) (hne : m ≠ "") :
    (generate_response product h d (.error e)).1
        = ⟨apology_text e, none, 1, "English"⟩
    ∧ ((generate_response product h d (.error e)).2.count .generate) = 1 := by
  unfold generate_response
  rw [hm]
  simp [hne, List.count_cons]

/-- C5: for every history with no role-`"user"` message (including the
empty history), `generate_response` takes the greeting path: canned
greeting text, absent offered price, step 1, language "English", with no
external call issued. -/
theorem C5_no_user_greeting (product : ProductD) (h : List Msg)
    (d g : Except String String)
    (hnone : ∀ m ∈ h, m.role ≠ some "user") :
    generate_response product h d g = (⟨greeting_text, none, 1, "English"⟩, []) := by
  unfold generate_response
  rw [latest_user_message_eq_none hnone]

/-- C10: when the latest-timestamped user message has empty text,
`generate_response` takes the same greeting path as a history with no
user messages: canned greeting, absent offered price, step 1, language
"English" (and no external call). -/
theorem C10_empty_text_greeting (product : ProductD) (h : List Msg)
    (d g : Except String String)
    (hm : get_latest_user_message h = some "") :
    generate_response product h d g = (⟨greeting_text, none, 1, "English"⟩, []) := by
  unfold generate_response
  rw [hm]
  rfl

theorem C4_generator_failure_witness :
    (generate_response ⟨some "Widget", some 100⟩ [⟨some "user", some "1", some "hi"⟩]
        (.ok "Spanish") (.error "boom")).1
      = ⟨apology_text "boom", none, 1, "English"⟩ :=
  (C4_generator_failure ⟨some "Widget", some 100⟩ [⟨some "user", some "1", some "hi"⟩]
    (.ok "Spanish") "boom" "hi" (by decide) (by decide)).1

theorem C5_no_user_greeting_witness :
    generate_response ⟨some "Widget", some 100⟩ [] (.ok "x") (.ok "y")
      = (⟨greeting_text, none, 1, "English"⟩, []) :=
  C5_no_user_greeting ⟨some "Widget", some 100⟩ [] (.ok "x") (.ok "y") (by decide)

theorem C10_empty_text_greeting_witness :
    generate_response ⟨some "Widget", some 100⟩ [⟨some "user", some "1", some ""⟩]
        (.ok "x") (.ok "y")
      = (⟨greeting_text, none, 1, "English"⟩, []) :=
  C10_empty_text_greeting ⟨some "Widget", some 100⟩ [⟨some "user", some "1", some ""⟩]
    (.ok "x") (.ok "y") (by decide)

/-- An HTTP reply: either an error `{error, status}` with its status code,
or a success body. -/
inductive Reply (α : Type) where
  | error (code : Nat) (errorMsg : String) (status : String)
  | success (body : α)

/-- The JSON body of a `POST /api/bargain` request; fields may be absent. -/
structure BargainRequest where
  product_details : Option ProductD
  conversation_history : List Msg

/-- The claim-relevant fields of the `/api/bargain` success body
(`app.py` lines 276-297).  The display-rounded `discount_percentage` and
the wall-clock `timestamp` are not modelled. -/
structure BargainSuccess where
  status : String
  bot_response : String
  detected_language : String
  step : Nat
  max_steps : Nat
  offered_price : Option ℚ
  is_final_offer : Bool
  name : String
  original_price : ℚ
  minimum_possible_price : ℚ
  max_discount_percentage : ℚ

/-- The `/api/bargain` handler `bargain_chat` (`app.py` lines 238-305):
validation, then `generate_response`, then response assembly.  Returns
the reply together with the external calls issued. -/
def bargain_chat (req : BargainRequest) (detectOutcome genOutcome : Except String String) :
    Reply BargainSuccess × List ExtCall :=
  match req.product_details with
  | none => (.error 400 "Missing required field: product_details" "error", [])
  | some product_details =>
    if product_details.name = none ∨ product_details.price = none then
      (.error 400 "Product details must include name and price" "error", [])
    else
      let r := generate_response product_details req.conversation_history
        detectOutcome genOutcome
      let original_price := product_details.price.getD 0
      let minimum_price := calculate_minimum_price original_price
      (.success ⟨"success", r.1.text, r.1.language, r.1.step, 4, r.1.offered_price,
        decide (4 ≤ r.1.step), product_details.name.getD "", original_price,
        minimum_price, max_discount_percentage⟩, r.2)

/-- The JSON body of a `POST /api/bargain/initial` request. -/
structure InitialRequest where
  product_details : Option ProductD
  language : Option String

/-- Python's `str.lower()`. -/
def pyLower (s : String) : String := String.mk (s.data.map Char.toLower)

/-- The price-range wording at `app.py` lines 334-342. -/
def price_context (product_price : ℚ) : String :=
  if product_price < 50 then "affordable"
  else if product_price < 200 then "reasonably priced"
  else if product_price < 500 then "premium"
  else "high-end"

/-- The claim-relevant fields of the `/api/bargain/initial` success body
(`app.py` lines 377-394).  `potential_savings` is rendered as the string
`"Up to $X possible"` where `X` is `max_discount_amount` formatted to two
decimals; the numeric `max_discount_amount` (line 375) is modelled.  The
`initial_message` text itself embeds a float rendering of the price and
is not modelled. -/
structure InitialSuccess where
  status : String
  response_language : String
  name : String
  original_price : ℚ
  max_discount_amount : ℚ
  total_steps : Nat

/-- The `/api/bargain/initial` handler `get_initial_message`
(`app.py` lines 307-400): validation, the optional externally-generated
non-English greeting with English fallback, and the discount info. -/
def get_initial_message (req : InitialRequest) (genOutcome : Except String String) :
    Reply InitialSuccess × List ExtCall :=
  match req.product_details with
  | none => (.error 400 "Missing product_details" "error", [])
  | some product_details =>
    if product_details.name = none ∨ product_details.price = none then
      (.error 400 "Product details must include name and price" "error", [])
    else
      let user_language := (req.language.getD "English")
      let product_name := product_details.name.getD ""
      let product_price := product_details.price.getD 0
      let langCallsAndLanguage : String × List ExtCall :=
        if pyLower user_language ≠ "english" then
          match genOutcome with
          | .ok _ => (user_language, [.generate])
          | .error _ => ("English", [.generate])
        else (user_language, [])
      let minimum_price := calculate_minimum_price product_price
      let max_discount_amount := product_price - minimum_price
      (.success ⟨"success", langCallsAndLanguage.1, product_name, product_price,
        max_discount_amount, 4⟩, langCallsAndLanguage.2)

/-- C7: every `/api/bargain` request whose body is missing
`product_details`, or whose `product_details` lacks `name` or `price`,
gets an HTTP 400 reply with status `"error"` and an error message, and
no external generator call is issued; the same holds for
`/api/bargain/initial`. -/
theorem C7_validation (req : BargainRequest) (d g : Except String String)
    (hbad : req.product_details = none
      ∨ ∃ pd, req.product_details = some pd ∧ (pd.name = none ∨ pd.price = none)) :
    (∃ msg, (bargain_chat req d g).1 = .error 400 msg "error")
    ∧ (bargain_chat req d g).2 = []
    ∧ ∀ lang : Option String,
        (∃ msg, (get_initial_message ⟨req.product_details, lang⟩ g).1 = .error 400 msg "error")
        ∧ (get_initial_message ⟨req.product_details, lang⟩ g).2 = [] := by
  rcases hbad with hnone | ⟨pd, hpd, hmiss⟩
  · refine ⟨⟨"Missing required field: product_details", ?_⟩, ?_,
      fun lang => ⟨⟨"Missing product_details", ?_⟩, ?_⟩⟩ <;>
    simp [bargain_chat, get_initial_message, hnone]
  · rcases hmiss with hmn | hmp
    · refine ⟨⟨"Product details must include name and price", ?_⟩, ?_,
        fun lang => ⟨⟨"Product details must include name and price", ?_⟩, ?_⟩⟩ <;>
      simp [bargain_chat, get_initial_message, hpd, hmn]
    · refine ⟨⟨"Product details must include name and price", ?_⟩, ?_,
        fun lang => ⟨⟨"Product details must include name and price", ?_⟩, ?_⟩⟩ <;>
      simp [bargain_chat, get_initial_message, hpd, hmp]

theorem C7_validation_witness :
    (bargain_chat ⟨none, []⟩ (.ok "x") (.ok "y")).2 = [] :=
  (C7_validation ⟨none, []⟩ (.ok "x") (.ok "y") (Or.inl rfl)).2.1

/-- C9: for every valid `/api/bargain/initial` request with product
price `p`, the success body's potential-savings amount is
`original_price - minimum_price = p - 0.9p = 0.1p`. -/
theorem C9_potential_savings (req : InitialRequest) (g : Except String String)
    (pd : ProductD) (p : ℚ) (hpd : req.product_details = some pd)
    (hname : pd.name ≠ none) (hprice : pd.price = some p) :
    ∃ body : InitialSuccess,
      (get_initial_message req g).1 = .success body
      ∧ body.original_price = p
      ∧ body.max_discount_amount = p - calculate_minimum_price p
      ∧ body.max_discount_amount = p / 10 := by
  have hcond : ¬ (pd.name = none ∨ pd.price = none) := by
    rintro (hn | hp)
    · exact hname hn
    · rw [hprice] at hp; cases hp
  simp only [get_initial_message, hpd]
  rw [if_neg hcond]
  refine ⟨_, rfl, ?_, ?_, ?_⟩
  · simp [hprice]
  · simp [hprice]
  · simp [hprice, calculate_minimum_price, max_discount_percentage]
    ring

theorem C9_potential_savings_witness :
    ∃ body : InitialSuccess,
      (get_initial_message ⟨some ⟨some "Widget", some 100⟩, none⟩ (.ok "x")).1
        = .success body
      ∧ body.max_discount_amount = 10 := by
  obtain ⟨body, h1, h2, h3, h4⟩ :=
    C9_potential_savings ⟨some ⟨some "Widget", some 100⟩, none⟩ (.ok "x")
      ⟨some "Widget", some 100⟩ 100 rfl (by simp) rfl
  refine ⟨body, h1, ?_⟩
  rw [h4]
  norm_num
